import Mathlib

/-!
Shallow embedding of the analysis core of the TradeIdeasInsight repository:

* `src/utils/sp400_analyzer.py` — the S&P 500 inclusion scorer
  (`Russell1000Analyzer._calculate_inclusion_score`);
* `src/utils/cross_analyzer.py` — golden/death cross detection
  (`CrossAnalyzer._check_cross`, `CrossAnalyzer.analyze_stocks`) and RSI
  (`CrossAnalyzer._calculate_rsi`);
* `src/utils/stock_analysis.py` — price rebasing
  (`StockAnalyzer._rebase_prices`).

Python numbers are modelled as exact rationals.  Pandas float series are
modelled with an explicit NaN/∞-aware value type (`PF`) in the places where
those special values are reachable (the RSI pipeline divides by a possibly
zero rolling mean, which in pandas/numpy yields `inf` or `NaN` rather than
raising).  Python dicts with a fixed key set are modelled as structures with
`Option`-valued fields (`none` = key absent), and `dict.get key default`
becomes `Option.getD`.  Dates are modelled as integer day numbers, so that
`(d1 - d2).days` becomes plain integer subtraction.
-/

/-- Model of the `score_breakdown` dict built by `_calculate_inclusion_score`
(`src/utils/sp400_analyzer.py:252-332`).  The four unconditional criteria are
always inserted; `profitability` and `growth` are inserted only inside their
`if` blocks (lines 307-310 and 315-318), hence every field is an `Option`. -/
structure ScoreBreakdown where
  market_cap : Option ℚ := none
  liquidity : Option ℚ := none
  float : Option ℚ := none
  profitability : Option ℚ := none
  growth : Option ℚ := none
  financial_health : Option ℚ := none
deriving DecidableEq, Repr

/-- Model of the metrics dict produced by `_get_financial_metrics`
(`src/utils/sp400_analyzer.py:200-234`) and consumed (and mutated) by
`_calculate_inclusion_score`.  Each key may be absent (`none`); the scorer
reads keys via `dict.get` with per-call defaults, modelled by `Option.getD`.
`score_breakdown` models the key the scorer writes back at line 334. -/
structure Metrics where
  market_cap : Option ℚ := none
  revenue_growth : Option ℚ := none
  profit_margin : Option ℚ := none
  roe : Option ℚ := none
  debt_to_equity : Option ℚ := none
  free_cash_flow : Option ℚ := none
  avg_volume : Option ℚ := none
  pe_ratio : Option ℚ := none
  forward_pe : Option ℚ := none
  price_to_book : Option ℚ := none
  enterprise_value : Option ℚ := none
  earnings_growth : Option ℚ := none
  shares_outstanding : Option ℚ := none
  float_shares : Option ℚ := none
  country : Option String := none
  score_breakdown : Option ScoreBreakdown := none
deriving DecidableEq, Repr

/-- The `self.sp500_criteria` constants (`src/utils/sp400_analyzer.py:21-27`).
`22.7e9` and the other literals are exactly representable, so the rational
values below equal the Python floats. -/
structure SP500Criteria where
  min_market_cap : ℚ
  min_float_percentage : ℚ
  min_monthly_volume : ℚ
  min_liquidity_ratio : ℚ
  profitability_quarters : ℕ
deriving DecidableEq, Repr

/-- The fixed criteria configuration used by the scorer (the source reads the
constants through `self`, never a parameter). -/
def sp500_criteria : SP500Criteria :=
  { min_market_cap := 22700000000
    min_float_percentage := 50
    min_monthly_volume := 250000
    min_liquidity_ratio := 3 / 4
    profitability_quarters := 4 }

/-- Market-cap block of `_calculate_inclusion_score`
(`src/utils/sp400_analyzer.py:260-271`): the points contributed and whether
the hard market-cap criterion is met (`criteria_met` is set to `False` in the
`else` branch). -/
def capScorePair (m : Metrics) : ℚ × Bool :=
  let market_cap := m.market_cap.getD 0
  if market_cap ≥ sp500_criteria.min_market_cap then
    (min 30 (20 + (market_cap - sp500_criteria.min_market_cap) / 1000000000), true)
  else
    (0, false)

/-- Liquidity block (`src/utils/sp400_analyzer.py:273-286`): monthly volume is
the daily average times 20; full 10 points at or above the threshold,
proportional points and a hard-fail below it. -/
def liquidityScorePair (m : Metrics) : ℚ × Bool :=
  let avg_volume := m.avg_volume.getD 0
  let monthly_volume := avg_volume * 20
  if monthly_volume ≥ sp500_criteria.min_monthly_volume then
    (10, true)
  else
    (max 0 (monthly_volume / sp500_criteria.min_monthly_volume * 10), false)

/-- Float block (`src/utils/sp400_analyzer.py:288-302`): public float
percentage is `float_shares / shares_outstanding * 100` guarded by
`shares_outstanding > 0` (else 0); full 20 points or 0 points plus a
hard-fail. -/
def floatScorePair (m : Metrics) : ℚ × Bool :=
  let shares_outstanding := m.shares_outstanding.getD 0
  let float_shares := m.float_shares.getD 0
  let public_float_pct :=
    if shares_outstanding > 0 then float_shares / shares_outstanding * 100 else 0
  if public_float_pct ≥ sp500_criteria.min_float_percentage then
    (20, true)
  else
    (0, false)

/-- Profitability block (`src/utils/sp400_analyzer.py:304-310`): points are
added, and the `profitability` breakdown key is written, only when both
`profit_margin` and `roe` are positive; `none` models the absent key. -/
def profitabilityScoreOpt (m : Metrics) : Option ℚ :=
  let profit_margin := m.profit_margin.getD 0
  let roe := m.roe.getD 0
  if profit_margin > 0 ∧ roe > 0 then
    some (min 10 ((profit_margin + roe) / 2))
  else
    none

/-- Growth block (`src/utils/sp400_analyzer.py:312-318`): points are added,
and the `growth` breakdown key is written, only when `revenue_growth` or
`earnings_growth` is positive. -/
def growthScoreOpt (m : Metrics) : Option ℚ :=
  let revenue_growth := m.revenue_growth.getD 0
  let earnings_growth := m.earnings_growth.getD 0
  if revenue_growth > 0 ∨ earnings_growth > 0 then
    some (min 10 (max revenue_growth earnings_growth / 2))
  else
    none

/-- Financial-health block (`src/utils/sp400_analyzer.py:320-332`).  Note the
source default: `metrics.get('debt_to_equity', 100)` — a `debt_to_equity` key
missing from the dict defaults to 100, so the debt component is
`max 0 (5 - 100/10) = 0` there, while `debt_to_equity ≤ 0` takes the `else 5`
branch. -/
def healthScore (m : Metrics) : ℚ :=
  let debt_to_equity := m.debt_to_equity.getD 100
  let free_cash_flow := m.free_cash_flow.getD 0
  let debt_score := if debt_to_equity > 0 then max 0 (5 - debt_to_equity / 10) else 5
  let fcf_score : ℚ := if free_cash_flow > 0 then 5 else 0
  debt_score + fcf_score

/-- The `score_breakdown` dict as populated by one call of
`_calculate_inclusion_score` (`src/utils/sp400_analyzer.py:252-332`). -/
def scoreBreakdownOf (m : Metrics) : ScoreBreakdown :=
  { market_cap := some (capScorePair m).1
    liquidity := some (liquidityScorePair m).1
    float := some (floatScorePair m).1
    profitability := profitabilityScoreOpt m
    growth := growthScoreOpt m
    financial_health := some (healthScore m) }

/-- Sum of the entries present in a breakdown dict (an absent key contributes
nothing, exactly as it is never added to `score` in the source). -/
def ScoreBreakdown.entriesSum (b : ScoreBreakdown) : ℚ :=
  b.market_cap.getD 0 + b.liquidity.getD 0 + b.float.getD 0 +
    b.profitability.getD 0 + b.growth.getD 0 + b.financial_health.getD 0

/-- Result of `_calculate_inclusion_score`: the Python function returns
`(min(100, score), criteria_met)` and mutates its `metrics` argument by
assigning `metrics['score_breakdown']` (line 334); the mutation is made
explicit as the `metricsAfter` field. -/
structure InclusionResult where
  score : ℚ
  criteria_met : Bool
  metricsAfter : Metrics
deriving DecidableEq, Repr

/-- Embedding of `Russell1000Analyzer._calculate_inclusion_score`
(`src/utils/sp400_analyzer.py:236-335`).  `score` accumulates the six block
contributions in source order; `criteria_met` starts `True` and is forced
`False` by the US-domicile check (lines 255-258) and by the hard market-cap,
liquidity and float branches, hence it equals the conjunction below. -/
def calculate_inclusion_score (m : Metrics) : InclusionResult :=
  let country := m.country.getD ""
  let criteria_met :=
    decide (country = "United States") && (capScorePair m).2 &&
      (liquidityScorePair m).2 && (floatScorePair m).2
  let score :=
    (capScorePair m).1 + (liquidityScorePair m).1 + (floatScorePair m).1 +
      (profitabilityScoreOpt m).getD 0 + (growthScoreOpt m).getD 0 + healthScore m
  { score := min 100 score
    criteria_met := criteria_met
    metricsAfter := { m with score_breakdown := some (scoreBreakdownOf m) } }

lemma capScore_nonneg (m : Metrics) : 0 ≤ (capScorePair m).1 := by
  unfold capScorePair
  dsimp only
  split
  · rename_i h
    refine le_min (by norm_num) ?_
    have hd : (0:ℚ) ≤ (m.market_cap.getD 0 - sp500_criteria.min_market_cap) / 1000000000 :=
      div_nonneg (by linarith) (by norm_num)
    linarith
  · exact le_refl 0

lemma liquidityScore_nonneg (m : Metrics) : 0 ≤ (liquidityScorePair m).1 := by
  unfold liquidityScorePair
  dsimp only
  split
  · norm_num
  · exact le_max_left 0 _

lemma floatScore_nonneg (m : Metrics) : 0 ≤ (floatScorePair m).1 := by
  unfold floatScorePair
  dsimp only
  split
  all_goals split
  all_goals norm_num

lemma profitabilityScore_nonneg (m : Metrics) : 0 ≤ (profitabilityScoreOpt m).getD 0 := by
  unfold profitabilityScoreOpt
  dsimp only
  split
  · rename_i h
    simp only [Option.getD_some]
    refine le_min (by norm_num) ?_
    have := h.1
    have := h.2
    have : (0:ℚ) ≤ (m.profit_margin.getD 0 + m.roe.getD 0) / 2 :=
      div_nonneg (by linarith) (by norm_num)
    linarith
  · simp

lemma growthScore_nonneg (m : Metrics) : 0 ≤ (growthScoreOpt m).getD 0 := by
  unfold growthScoreOpt
  dsimp only
  split
  · rename_i h
    simp only [Option.getD_some]
    refine le_min (by norm_num) ?_
    have hmax : (0:ℚ) ≤ max (m.revenue_growth.getD 0) (m.earnings_growth.getD 0) := by
      rcases h with h | h
      · exact le_trans (le_of_lt h) (le_max_left _ _)
      · exact le_trans (le_of_lt h) (le_max_right _ _)
    exact div_nonneg hmax (by norm_num)
  · simp

lemma healthScore_nonneg (m : Metrics) : 0 ≤ healthScore m := by
  unfold healthScore
  dsimp only
  split
  · split
    · exact add_nonneg (le_max_left 0 _) (by norm_num)
    · exact add_nonneg (le_max_left 0 _) (by norm_num)
  · split
    · norm_num
    · norm_num

lemma score_sum_nonneg (m : Metrics) :
    0 ≤ (capScorePair m).1 + (liquidityScorePair m).1 + (floatScorePair m).1 +
      (profitabilityScoreOpt m).getD 0 + (growthScoreOpt m).getD 0 + healthScore m := by
  have h1 := capScore_nonneg m
  have h2 := liquidityScore_nonneg m
  have h3 := floatScore_nonneg m
  have h4 := profitabilityScore_nonneg m
  have h5 := growthScore_nonneg m
  have h6 := healthScore_nonneg m
  linarith

/-- C1: for every fundamentals snapshot, the total inclusion score lies in
`[0, 100]`, every per-criterion breakdown contribution is non-negative, and
the total is the capped sum. -/
theorem inclusion_score_in_range (m : Metrics) :
    0 ≤ (calculate_inclusion_score m).score ∧
      (calculate_inclusion_score m).score ≤ 100 ∧
      0 ≤ ((scoreBreakdownOf m).market_cap).getD 0 ∧
      0 ≤ ((scoreBreakdownOf m).liquidity).getD 0 ∧
      0 ≤ ((scoreBreakdownOf m).float).getD 0 ∧
      0 ≤ ((scoreBreakdownOf m).profitability).getD 0 ∧
      0 ≤ ((scoreBreakdownOf m).growth).getD 0 ∧
      0 ≤ ((scoreBreakdownOf m).financial_health).getD 0 := by
  refine ⟨?_, ?_, ?_, ?_, ?_, ?_, ?_, ?_⟩
  · exact le_min (by norm_num) (score_sum_nonneg m)
  · exact min_le_left _ _
  · simpa [scoreBreakdownOf] using capScore_nonneg m
  · simpa [scoreBreakdownOf] using liquidityScore_nonneg m
  · simpa [scoreBreakdownOf] using floatScore_nonneg m
  · simpa [scoreBreakdownOf] using profitabilityScore_nonneg m
  · simpa [scoreBreakdownOf] using growthScore_nonneg m
  · simpa [scoreBreakdownOf] using healthScore_nonneg m

/-- C2 (counterexample): on the all-defaults metrics dict (every key absent)
the breakdown written by the scorer has no `profitability` and no `growth`
entry — those keys are only assigned inside their `if` blocks
(`src/utils/sp400_analyzer.py:307-310, 315-318`) — refuting the claim that
the breakdown maps each of the six criterion names to points. -/
theorem breakdown_missing_keys_cex :
    (scoreBreakdownOf ({} : Metrics)).profitability = none ∧
      (scoreBreakdownOf ({} : Metrics)).growth = none := by
  constructor <;> rfl

/-- C2 (amended): the breakdown always contains `market_cap`, `liquidity`,
`float` and `financial_health`; it contains `profitability` exactly when both
margin and ROE are positive and `growth` exactly when a growth figure is
positive; the returned total equals the sum of the entries actually present,
capped at 100; and the breakdown is the one stored into the metrics dict. -/
theorem inclusion_breakdown_structure (m : Metrics) :
    ((scoreBreakdownOf m).market_cap).isSome = true ∧
      ((scoreBreakdownOf m).liquidity).isSome = true ∧
      ((scoreBreakdownOf m).float).isSome = true ∧
      ((scoreBreakdownOf m).financial_health).isSome = true ∧
      (((scoreBreakdownOf m).profitability).isSome = true ↔
        0 < m.profit_margin.getD 0 ∧ 0 < m.roe.getD 0) ∧
      (((scoreBreakdownOf m).growth).isSome = true ↔
        0 < m.revenue_growth.getD 0 ∨ 0 < m.earnings_growth.getD 0) ∧
      (calculate_inclusion_score m).score = min 100 (scoreBreakdownOf m).entriesSum ∧
      (calculate_inclusion_score m).metricsAfter.score_breakdown = some (scoreBreakdownOf m) := by
  refine ⟨rfl, rfl, rfl, rfl, ?_, ?_, ?_, rfl⟩
  · unfold scoreBreakdownOf profitabilityScoreOpt
    dsimp only
    split
    · rename_i h
      simpa using h
    · rename_i h
      exact iff_of_false (by simp) h
  · unfold scoreBreakdownOf growthScoreOpt
    dsimp only
    split
    · rename_i h
      simpa using h
    · rename_i h
      exact iff_of_false (by simp) h
  · rfl

/-- C3: the market-cap criterion contributes
`min 30 (20 + (market_cap − min_market_cap)/1e9)` points at or above the
threshold (hence exactly 20 at the threshold), and 0 points together with a
hard-fail below it (`src/utils/sp400_analyzer.py:260-271`). -/
theorem market_cap_component (m : Metrics) :
    (sp500_criteria.min_market_cap ≤ m.market_cap.getD 0 →
      (scoreBreakdownOf m).market_cap =
        some (min 30 (20 + (m.market_cap.getD 0 - sp500_criteria.min_market_cap) / 1000000000))) ∧
      (m.market_cap.getD 0 = sp500_criteria.min_market_cap →
        (scoreBreakdownOf m).market_cap = some 20) ∧
      (m.market_cap.getD 0 < sp500_criteria.min_market_cap →
        (scoreBreakdownOf m).market_cap = some 0 ∧
          (calculate_inclusion_score m).criteria_met = false) := by
  refine ⟨?_, ?_, ?_⟩
  · intro h
    unfold scoreBreakdownOf capScorePair
    dsimp only
    rw [if_pos h]
  · intro h
    unfold scoreBreakdownOf capScorePair
    dsimp only
    rw [if_pos (le_of_eq h.symm), h]
    norm_num
  · intro h
    have hcap : capScorePair m = (0, false) := by
      unfold capScorePair
      dsimp only
      rw [if_neg (not_le.mpr h)]
    constructor
    · unfold scoreBreakdownOf
      rw [hcap]
    · unfold calculate_inclusion_score
      rw [hcap]
      simp

/-- C3 (witness): at a market cap exactly equal to the 22.7e9 threshold the
breakdown awards 20 points; below it the breakdown awards 0 and the hard
criteria fail. -/
theorem market_cap_component_witness :
    (scoreBreakdownOf ({ market_cap := some 22700000000 } : Metrics)).market_cap = some 20 ∧
      (scoreBreakdownOf ({ market_cap := some 1000000000 } : Metrics)).market_cap = some 0 ∧
      (calculate_inclusion_score ({ market_cap := some 1000000000 } : Metrics)).criteria_met
        = false := by
  refine ⟨(market_cap_component _).2.1 (by norm_num [sp500_criteria]), ?_, ?_⟩
  · exact ((market_cap_component _).2.2 (by norm_num [sp500_criteria])).1
  · exact ((market_cap_component _).2.2 (by norm_num [sp500_criteria])).2

/-- C4: whenever the `country` value read from the metrics dict is not
"United States", the scorer returns `criteria_met = false` regardless of all
other fields (`src/utils/sp400_analyzer.py:255-258`). -/
theorem non_us_hard_fail (m : Metrics) (h : m.country.getD "" ≠ "United States") :
    (calculate_inclusion_score m).criteria_met = false := by
  unfold calculate_inclusion_score
  simp [decide_eq_false h]

/-- C4 (witness): an otherwise ideal snapshot domiciled in Ireland fails the
hard criteria. -/
theorem non_us_hard_fail_witness :
    (calculate_inclusion_score
      ({ market_cap := some 1000000000000
         avg_volume := some 10000000
         shares_outstanding := some 1000
         float_shares := some 1000
         profit_margin := some 20
         roe := some 20
         revenue_growth := some 20
         earnings_growth := some 20
         debt_to_equity := some 1
         free_cash_flow := some 1000000
         country := some "Ireland" } : Metrics)).criteria_met = false :=
  non_us_hard_fail _ (by decide)

/-- C5 (counterexample): on a metrics dict with no `debt_to_equity` key (and
no `free_cash_flow`, so the FCF part contributes 0) the financial-health
entry is 0, not the claimed full 5 debt points: the source defaults a missing
`debt_to_equity` to 100 (`src/utils/sp400_analyzer.py:321`), giving debt
component `max 0 (5 − 100/10) = 0`. -/
theorem debt_missing_not_full_points_cex :
    (scoreBreakdownOf ({} : Metrics)).financial_health = some 0 := by
  with_unfolding_all decide

/-- C5 (amended): a negative or zero `debt_to_equity` is treated as absent
and awards the full 5 debt points; a `debt_to_equity` key missing from the
dict defaults to 100 and awards 0 debt points; a positive value `d` awards
`max 0 (5 − d/10)`; the FCF part adds 5 exactly when free cash flow is
positive (`src/utils/sp400_analyzer.py:320-332`). -/
theorem debt_component (m : Metrics) :
    (scoreBreakdownOf m).financial_health = some (healthScore m) ∧
      (m.debt_to_equity = none →
        healthScore m = 0 + (if m.free_cash_flow.getD 0 > 0 then (5:ℚ) else 0)) ∧
      (∀ d, m.debt_to_equity = some d → d ≤ 0 →
        healthScore m = 5 + (if m.free_cash_flow.getD 0 > 0 then (5:ℚ) else 0)) ∧
      (∀ d, m.debt_to_equity = some d → 0 < d →
        healthScore m = max 0 (5 - d / 10) + (if m.free_cash_flow.getD 0 > 0 then (5:ℚ) else 0)) := by
  refine ⟨rfl, ?_, ?_, ?_⟩
  · intro h
    unfold healthScore
    rw [h]
    norm_num
  · intro d hd hle
    unfold healthScore
    rw [hd]
    simp only [Option.getD_some]
    rw [if_neg (not_lt.mpr hle)]
  · intro d hd hpos
    unfold healthScore
    rw [hd]
    simp only [Option.getD_some]
    rw [if_pos hpos]

/-- C5 (witness): missing D/E gives 0 debt points; D/E of −3 or 0 gives the
full 5; D/E of 20 gives `max 0 (5 − 2) = 3`. -/
theorem debt_component_witness :
    healthScore ({} : Metrics) = 0 ∧
      healthScore ({ debt_to_equity := some (-3) } : Metrics) = 5 ∧
      healthScore ({ debt_to_equity := some 0 } : Metrics) = 5 ∧
      healthScore ({ debt_to_equity := some 20 } : Metrics) = 3 := by
  refine ⟨?_, ?_, ?_, ?_⟩
  · have h := (debt_component ({} : Metrics)).2.1 rfl
    simpa using h
  · have h := (debt_component ({ debt_to_equity := some (-3) } : Metrics)).2.2.1 (-3) rfl
      (by norm_num)
    simpa using h
  · have h := (debt_component ({ debt_to_equity := some 0 } : Metrics)).2.2.1 0 rfl le_rfl
    simpa using h
  · have h := (debt_component ({ debt_to_equity := some 20 } : Metrics)).2.2.2 20 rfl
      (by norm_num)
    rw [h]
    norm_num

/-- C10: `_calculate_inclusion_score` mutates the metrics dict it was given:
after every call the dict contains a `score_breakdown` entry holding the
per-criterion breakdown (`src/utils/sp400_analyzer.py:334`), so a snapshot
that had no such entry is not left unchanged by scoring. -/
theorem scorer_mutates_metrics (m : Metrics) :
    (calculate_inclusion_score m).metricsAfter =
        { m with score_breakdown := some (scoreBreakdownOf m) } ∧
      (m.score_breakdown = none → (calculate_inclusion_score m).metricsAfter ≠ m) := by
  refine ⟨rfl, ?_⟩
  intro h hEq
  have h2 : some (scoreBreakdownOf m) = m.score_breakdown :=
    congrArg Metrics.score_breakdown hEq
  rw [h] at h2
  exact Option.noConfusion h2

/-- C10 (witness): scoring the all-defaults snapshot stores the breakdown and
does change the snapshot. -/
theorem scorer_mutates_metrics_witness :
    (calculate_inclusion_score ({} : Metrics)).metricsAfter =
        { ({} : Metrics) with score_breakdown := some (scoreBreakdownOf ({} : Metrics)) } ∧
      (calculate_inclusion_score ({} : Metrics)).metricsAfter ≠ ({} : Metrics) :=
  ⟨(scorer_mutates_metrics ({} : Metrics)).1,
    (scorer_mutates_metrics ({} : Metrics)).2 rfl⟩

/-- Row of the rebased output of `_rebase_prices`
(`src/utils/stock_analysis.py:104-157`): the columns `Date`, `Price`,
`Rebased_Price`, `Days_From_Announcement` kept at line 147. -/
structure RebasedRow where
  date : ℤ
  price : ℚ
  rebased_price : ℚ
  days_from_announcement : ℤ
deriving DecidableEq, Repr

/-- Pandas `Series.idxmin` restricted to what `_rebase_prices` uses: the first
element of the list attaining the minimal key (`src/utils/stock_analysis.py:119`). -/
def idxminBy {α : Type} (f : α → ℤ) (l : List α) : Option α :=
  l.foldl (fun best x =>
    match best with
    | none => some x
    | some b => if f x < f b then some x else some b) none

lemma idxminBy_foldl_mem {α : Type} (f : α → ℤ) (l : List α) :
    ∀ (acc : Option α) (p : α),
      l.foldl (fun best x =>
        match best with
        | none => some x
        | some b => if f x < f b then some x else some b) acc = some p →
      acc = some p ∨ p ∈ l := by
  induction l with
  | nil =>
    intro acc p h
    exact Or.inl h
  | cons x xs ih =>
    intro acc p h
    rw [List.foldl_cons] at h
    rcases ih _ p h with hstep | hmem
    · cases acc with
      | none =>
        simp only [] at hstep
        exact Or.inr (by rw [List.mem_cons]; exact Or.inl (Option.some.inj hstep).symm)
      | some b =>
        simp only [] at hstep
        by_cases hlt : f x < f b
        · rw [if_pos hlt] at hstep
          exact Or.inr (by rw [List.mem_cons]; exact Or.inl (Option.some.inj hstep).symm)
        · rw [if_neg hlt] at hstep
          exact Or.inl hstep
    · exact Or.inr (List.mem_cons_of_mem x hmem)

lemma idxminBy_mem {α : Type} (f : α → ℤ) (l : List α) (p : α)
    (h : idxminBy f l = some p) : p ∈ l := by
  rcases idxminBy_foldl_mem f l none p h with h' | h'
  · exact Option.noConfusion h'
  · exact h'

/-- Anchor search of `_rebase_prices` (`src/utils/stock_analysis.py:110-132`):
the exact announcement-date row if one exists, else the row minimising the
absolute day difference provided that difference is at most 5; `none` models
the `return pd.DataFrame()` at line 124.  Returns the pair
`(actual_announcement_date, announcement_price)`. -/
def findAnchor (stock_data : List (ℤ × ℚ)) (announcement_date : ℤ) : Option (ℤ × ℚ) :=
  match (stock_data.filter (fun p => p.1 = announcement_date)).head? with
  | some p => some (announcement_date, p.2)
  | none =>
    match idxminBy (fun p => |p.1 - announcement_date|) stock_data with
    | none => none
    | some p => if 5 < |p.1 - announcement_date| then none else some (p.1, p.2)

/-- Embedding of `StockAnalyzer._rebase_prices`
(`src/utils/stock_analysis.py:104-157`): empty input gives an empty frame; a
missing anchor (no trading date within 5 days) or a non-positive anchor price
gives an empty frame; otherwise every price is divided by the anchor price,
tagged with its signed day offset from the anchor, and the rows are sorted by
date (`sort_values('Date')`). -/
def rebase_prices (stock_data : List (ℤ × ℚ)) (announcement_date : ℤ) : List RebasedRow :=
  if stock_data = [] then []
  else
    match findAnchor stock_data announcement_date with
    | none => []
    | some (actual_announcement_date, announcement_price) =>
      if announcement_price ≤ 0 then []
      else
        List.insertionSort (fun a b => a.date ≤ b.date)
          (stock_data.map (fun p =>
            ({ date := p.1, price := p.2, rebased_price := p.2 / announcement_price,
               days_from_announcement := p.1 - actual_announcement_date } : RebasedRow)))

lemma findAnchor_none (stock_data : List (ℤ × ℚ)) (announcement_date : ℤ)
    (h : ∀ p ∈ stock_data, 5 < |p.1 - announcement_date|) :
    findAnchor stock_data announcement_date = none := by
  have hfilter : stock_data.filter (fun p => p.1 = announcement_date) = [] := by
    rw [List.filter_eq_nil_iff]
    intro p hp
    have h5 := h p hp
    simp only [decide_eq_true_eq]
    intro heq
    rw [heq] at h5
    simp at h5
  unfold findAnchor
  rw [hfilter]
  simp only [List.head?_nil]
  rcases hmin : idxminBy (fun p => |p.1 - announcement_date|) stock_data with _ | p
  · rw [hmin]
  · have hp := idxminBy_mem _ _ _ hmin
    rw [hmin]
    dsimp only
    rw [if_pos (h p hp)]

/-- C9: if no trading date in the series lies within 5 days of the
announcement date, `_rebase_prices` returns an empty frame (the symbol is
excluded) rather than raising. -/
theorem rebase_no_anchor_empty (stock_data : List (ℤ × ℚ)) (announcement_date : ℤ)
    (h : ∀ p ∈ stock_data, 5 < |p.1 - announcement_date|) :
    rebase_prices stock_data announcement_date = [] := by
  unfold rebase_prices
  split
  · rfl
  · rw [findAnchor_none stock_data announcement_date h]

/-- C9 (witness): a two-day series whose dates are 100 and 101 days after the
announcement date rebased at day 0 yields the empty frame. -/
theorem rebase_no_anchor_empty_witness :
    rebase_prices [(100, 50), (101, 51)] 0 = [] :=
  rebase_no_anchor_empty [(100, 50), (101, 51)] 0 (by decide)

/-- Short moving-average window of `CrossAnalyzer`
(`src/utils/cross_analyzer.py:11`). -/
def short_ma : ℕ := 50

/-- Long moving-average window of `CrossAnalyzer`
(`src/utils/cross_analyzer.py:12`). -/
def long_ma : ℕ := 200

/-- Pandas `Series.rolling(window=w).mean()` on a float series with no NaN
input (the close column): the first `w − 1` entries are NaN (`none`), from
index `w − 1` on the arithmetic mean of the trailing `w` entries. -/
def rollingMeanQ (w : ℕ) (xs : List ℚ) : List (Option ℚ) :=
  (List.range xs.length).map (fun i =>
    if i + 1 < w then none
    else some (((xs.take (i + 1)).drop (i + 1 - w)).sum / (w : ℚ)))

lemma rollingMeanQ_length (w : ℕ) (xs : List ℚ) :
    (rollingMeanQ w xs).length = xs.length := by
  simp [rollingMeanQ]

/-- One row of the dataframe after `hist.dropna()` in `_check_cross`
(`src/utils/cross_analyzer.py:66-69`): a date with close and both moving
averages defined. -/
structure CrossRow where
  date : ℤ
  close : ℚ
  ma50 : ℚ
  ma200 : ℚ
deriving DecidableEq, Repr

/-- The `MA50`/`MA200` columns of `_check_cross` followed by `dropna()`
(`src/utils/cross_analyzer.py:66-69`): rows whose long (hence also short)
moving average is NaN are dropped. -/
def crossRows (hist : List (ℤ × ℚ)) : List CrossRow :=
  let closes := hist.map Prod.snd
  (hist.zip ((rollingMeanQ short_ma closes).zip (rollingMeanQ long_ma closes))).filterMap
    (fun x =>
      match x.2.1, x.2.2 with
      | some a, some b => some { date := x.1.1, close := x.1.2, ma50 := a, ma200 := b }
      | _, _ => none)

/-- The `Signal` column (`src/utils/cross_analyzer.py:74`):
`np.where(MA50 > MA200, 1, -1)`. -/
def signalOf (r : CrossRow) : ℤ := if r.ma50 > r.ma200 then 1 else -1

/-- The `Cross` column (`src/utils/cross_analyzer.py:75`): day-over-day
difference of the signal, NaN (`none`) on the first row.  Each row is kept
with its cross value. -/
def crossColumn (rows : List CrossRow) : List (CrossRow × Option ℤ) :=
  match rows with
  | [] => []
  | r :: rest =>
    (r, none) :: (rest.zip (r :: rest)).map (fun x => (x.1, some (signalOf x.1 - signalOf x.2)))

/-- The trailing confirmation window (`src/utils/cross_analyzer.py:77-78`):
rows dated within the last 7 days before `endDate` (`datetime.now()` in the
source). -/
def recentCrosses (hist : List (ℤ × ℚ)) (endDate : ℤ) : List (CrossRow × Option ℤ) :=
  (crossColumn (crossRows hist)).filter (fun x => endDate - 7 ≤ x.1.date)

/-- The golden crosses in the window (`Cross == 2`,
`src/utils/cross_analyzer.py:83`). -/
def goldenIn (hist : List (ℤ × ℚ)) (endDate : ℤ) : List (CrossRow × Option ℤ) :=
  (recentCrosses hist endDate).filter (fun x => x.2 = some 2)

/-- The death crosses in the window (`Cross == -2`,
`src/utils/cross_analyzer.py:84`). -/
def deathIn (hist : List (ℤ × ℚ)) (endDate : ℤ) : List (CrossRow × Option ℤ) :=
  (recentCrosses hist endDate).filter (fun x => x.2 = some (-2))

/-- Outcome of `_check_cross` relevant to cross reporting: the cross type and
the cross date (`Cross_Type` and `Cross_Date` of the returned dict,
`src/utils/cross_analyzer.py:110-122`).  The dict's other entries (rounded
price/MA/RSI figures and `ticker.info` lookups) are presentation fields fed
from the same rows and from the external data provider. -/
inductive CrossType where
  | golden : CrossType
  | death : CrossType
deriving DecidableEq, Repr

structure CrossResult where
  cross_type : CrossType
  cross_date : ℤ
deriving DecidableEq, Repr

/-- Embedding of `CrossAnalyzer._check_cross` (`src/utils/cross_analyzer.py:56-127`):
`None` when fewer than 200 price rows exist, when fewer than 10 rows survive
`dropna`, or when the trailing window is empty; otherwise the most recent
golden cross in the window if any (`golden_cross.index[-1]`), else the most
recent death cross, else `None`. -/
def check_cross (hist : List (ℤ × ℚ)) (endDate : ℤ) : Option CrossResult :=
  if hist.length < long_ma then none
  else if (crossRows hist).length < 10 then none
  else if recentCrosses hist endDate = [] then none
  else
    match (goldenIn hist endDate).getLast? with
    | some x => some { cross_type := CrossType.golden, cross_date := x.1.date }
    | none =>
      match (deathIn hist endDate).getLast? with
      | some x => some { cross_type := CrossType.death, cross_date := x.1.date }
      | none => none

lemma crossRows_dates_pairwise (hist : List (ℤ × ℚ))
    (hsort : List.Pairwise (fun a b => a.1 < b.1) hist) :
    List.Pairwise (fun a b : CrossRow => a.date < b.date) (crossRows hist) := by
  unfold crossRows
  set z := (rollingMeanQ short_ma (hist.map Prod.snd)).zip
    (rollingMeanQ long_ma (hist.map Prod.snd)) with hz
  have hlen : hist.length ≤ z.length := by
    rw [hz, List.length_zip, rollingMeanQ_length, rollingMeanQ_length, List.length_map]
    simp
  have hfst : (hist.zip z).map Prod.fst = hist := List.map_fst_zip hist z hlen
  have hzip : List.Pairwise (fun x y : (ℤ × ℚ) × Option ℚ × Option ℚ => x.1.1 < y.1.1)
      (hist.zip z) := by
    rw [← hfst] at hsort
    exact (List.pairwise_map (f := Prod.fst)
      (R := fun a b : ℤ × ℚ => a.1 < b.1)).mp hsort
  have hdate : ∀ (a : (ℤ × ℚ) × Option ℚ × Option ℚ) (b : CrossRow),
      (match a.2.1, a.2.2 with
        | some x, some y => some { date := a.1.1, close := a.1.2, ma50 := x, ma200 := y }
        | _, _ => none) = some b → b.date = a.1.1 := by
    intro a b hb
    rcases a with ⟨⟨d, c⟩, o1, o2⟩
    cases o1 with
    | none => exact absurd hb (by simp)
    | some x =>
      cases o2 with
      | none => exact absurd hb (by simp)
      | some y =>
        dsimp only at hb
        rw [← Option.some.inj hb]
  refine hzip.filterMap _ ?_
  intro a a' hR b hb b' hb'
  rw [hdate a b hb, hdate a' b' hb']
  exact hR

lemma crossColumn_map_fst (rows : List CrossRow) :
    (crossColumn rows).map Prod.fst = rows := by
  cases rows with
  | nil => rfl
  | cons r rest =>
    unfold crossColumn
    rw [List.map_cons, List.map_map]
    have : (Prod.fst ∘ fun x : CrossRow × CrossRow => (x.1, some (signalOf x.1 - signalOf x.2)))
        = Prod.fst := by
      funext x
      rfl
    rw [this, List.map_fst_zip rest (r :: rest) (by simp)]

lemma crossColumn_dates_pairwise (rows : List CrossRow)
    (h : List.Pairwise (fun a b : CrossRow => a.date < b.date) rows) :
    List.Pairwise (fun a b : CrossRow × Option ℤ => a.1.date < b.1.date) (crossColumn rows) := by
  rw [← crossColumn_map_fst rows] at h
  exact (List.pairwise_map (f := Prod.fst)
    (R := fun a b : CrossRow => a.date < b.date)).mp h

lemma getLast?_is_max {α : Type} {R : α → α → Prop} :
    ∀ (l : List α), List.Pairwise R l → ∀ y, l.getLast? = some y →
      ∀ x ∈ l, x = y ∨ R x y := by
  intro l
  induction l with
  | nil =>
    intro _ y h
    exact absurd h (by simp)
  | cons a t ih =>
    intro hp y hl x hx
    cases t with
    | nil =>
      have hy : y = a := by
        simp only [List.getLast?_singleton] at hl
        exact (Option.some.inj hl).symm
      rcases List.mem_singleton.mp hx with rfl
      exact Or.inl hy.symm
    | cons b t2 =>
      have hl2 : (b :: t2).getLast? = some y := by
        rwa [List.getLast?_cons_cons] at hl
      rcases List.mem_cons.mp hx with rfl | hx2
      · have hymem : y ∈ b :: t2 := by
          rcases List.getLast?_eq_some_iff.mp hl2 with ⟨ys, hys⟩
          rw [hys]
          exact List.mem_append_right ys (List.mem_singleton_self y)
        exact Or.inr ((List.pairwise_cons.mp hp).1 y hymem)
      · exact ih (List.pairwise_cons.mp hp).2 y hl2 x hx2

/-- C7: with history dates strictly increasing and enough data, when at least
one golden cross lies in the trailing 7-day window `_check_cross` reports a
single golden-cross event dated at the most recent golden-cross date in the
window, even if death crosses are also present (golden takes precedence);
when only death crosses lie in the window it reports the most recent death
cross. -/
theorem cross_precedence (hist : List (ℤ × ℚ)) (endDate : ℤ)
    (hsort : List.Pairwise (fun a b => a.1 < b.1) hist)
    (hlen : long_ma ≤ hist.length)
    (hrows : 10 ≤ (crossRows hist).length) :
    (goldenIn hist endDate ≠ [] →
      ∃ g, (goldenIn hist endDate).getLast? = some g ∧
        check_cross hist endDate =
          some { cross_type := CrossType.golden, cross_date := g.1.date } ∧
        ∀ x ∈ goldenIn hist endDate, x.1.date ≤ g.1.date) ∧
      (goldenIn hist endDate = [] → deathIn hist endDate ≠ [] →
        ∃ d, (deathIn hist endDate).getLast? = some d ∧
          check_cross hist endDate =
            some { cross_type := CrossType.death, cross_date := d.1.date } ∧
          ∀ x ∈ deathIn hist endDate, x.1.date ≤ d.1.date) := by
  have hprec : List.Pairwise (fun a b : CrossRow × Option ℤ => a.1.date < b.1.date)
      (recentCrosses hist endDate) :=
    (crossColumn_dates_pairwise _ (crossRows_dates_pairwise hist hsort)).filter _
  have hpg : List.Pairwise (fun a b : CrossRow × Option ℤ => a.1.date < b.1.date)
      (goldenIn hist endDate) := hprec.filter _
  have hpd : List.Pairwise (fun a b : CrossRow × Option ℤ => a.1.date < b.1.date)
      (deathIn hist endDate) := hprec.filter _
  constructor
  · intro hne
    obtain ⟨g, hg⟩ : ∃ g, (goldenIn hist endDate).getLast? = some g := by
      cases hgl : (goldenIn hist endDate).getLast? with
      | none => exact absurd (List.getLast?_eq_none_iff.mp hgl) hne
      | some g => exact ⟨g, rfl⟩
    refine ⟨g, hg, ?_, ?_⟩
    · have hrecne : recentCrosses hist endDate ≠ [] := by
        intro hrec
        apply hne
        unfold goldenIn
        rw [hrec]
        rfl
      unfold check_cross
      rw [if_neg (Nat.not_lt.mpr hlen), if_neg (Nat.not_lt.mpr hrows), if_neg hrecne, hg]
    · intro x hx
      rcases getLast?_is_max _ hpg g hg x hx with rfl | hlt
      · exact le_refl _
      · exact le_of_lt hlt
  · intro hgempty hdne
    obtain ⟨d, hd⟩ : ∃ d, (deathIn hist endDate).getLast? = some d := by
      cases hdl : (deathIn hist endDate).getLast? with
      | none => exact absurd (List.getLast?_eq_none_iff.mp hdl) hdne
      | some d => exact ⟨d, rfl⟩
    refine ⟨d, hd, ?_, ?_⟩
    · have hrecne : recentCrosses hist endDate ≠ [] := by
        intro hrec
        apply hdne
        unfold deathIn
        rw [hrec]
        rfl
      have hgl : (goldenIn hist endDate).getLast? = none := by
        rw [hgempty]
        rfl
      unfold check_cross
      rw [if_neg (Nat.not_lt.mpr hlen), if_neg (Nat.not_lt.mpr hrows), if_neg hrecne, hgl, hd]
    · intro x hx
      rcases getLast?_is_max _ hpd d hd x hx with rfl | hlt
      · exact le_refl _
      · exact le_of_lt hlt

/-- Synthetic 210-day history: flat closes at 100 with a spike at day 203 and
a crash at days 205-206, producing both a golden cross (day 203) and a death
cross (day 206) inside the trailing 7-day window of `endDate = 209`. -/
def histA : List (ℤ × ℚ) :=
  (List.range 210).map (fun i =>
    (Int.ofNat i, if i = 203 then (200 : ℚ) else if i = 205 ∨ i = 206 then 10 else 100))

/-- Synthetic 210-day history: like `histA` but with the spike at day 196, so
the golden cross falls before the window and only the death cross (day 206)
lies inside it. -/
def histB : List (ℤ × ℚ) :=
  (List.range 210).map (fun i =>
    (Int.ofNat i, if i = 196 then (200 : ℚ) else if i = 205 ∨ i = 206 then 10 else 100))

lemma range_dates_pairwise (f : ℕ → ℚ) (n : ℕ) :
    List.Pairwise (fun a b => a.1 < b.1) ((List.range n).map (fun i => (Int.ofNat i, f i))) := by
  rw [List.pairwise_map]
  exact (List.pairwise_lt_range n).imp (fun h => by dsimp only; exact Int.ofNat_lt.mpr h)

set_option maxRecDepth 1000000 in
/-- C7 (witness): on `histA` both cross types fall in the window and the
golden cross of day 203 wins; on `histB` only the death cross is in the
window and day 206 is reported. -/
theorem cross_precedence_witness :
    check_cross histA 209 = some { cross_type := CrossType.golden, cross_date := 203 } ∧
      check_cross histB 209 = some { cross_type := CrossType.death, cross_date := 206 } := by
  constructor
  · have hval : (goldenIn histA 209).getLast? =
        some ({ date := 203, close := 200, ma50 := 102, ma200 := 201/2 }, some 2) := by
      with_unfolding_all decide
    have hgne : goldenIn histA 209 ≠ [] := by
      intro h
      simp [h] at hval
    obtain ⟨g, hg, hres, -⟩ :=
      (cross_precedence histA 209 (by unfold histA; exact range_dates_pairwise _ 210)
        (by with_unfolding_all decide)
        (by with_unfolding_all decide)).1 hgne
    have hgv := Option.some.inj (hval.symm.trans hg)
    rw [← hgv] at hres
    exact hres
  · have hdval : (deathIn histB 209).getLast? =
        some ({ date := 206, close := 10, ma50 := 492/5, ma200 := 498/5 }, some (-2)) := by
      with_unfolding_all decide
    have hdne : deathIn histB 209 ≠ [] := by
      intro h
      simp [h] at hdval
    have hgempty : goldenIn histB 209 = [] := by
      with_unfolding_all decide
    obtain ⟨d, hd, hres, -⟩ :=
      (cross_precedence histB 209 (by unfold histB; exact range_dates_pairwise _ 210)
        (by with_unfolding_all decide)
        (by with_unfolding_all decide)).2 hgempty hdne
    have hdv := Option.some.inj (hdval.symm.trans hd)
    rw [← hdv] at hres
    exact hres

/-- Embedding of `CrossAnalyzer.analyze_stocks` (`src/utils/cross_analyzer.py:14-54`).
The per-symbol data fetch and any exception raised while processing a symbol
are modelled by the injected `fetch` returning `Except`: the source wraps the
body of the loop in `try/except: continue`, so an error contributes nothing
and the loop proceeds; `_check_cross` returning `None` likewise contributes
nothing.  The collected rows are sorted by `Cross_Date` descending
(`sort_values('Cross_Date', ascending=False)`). -/
def analyze_stocks (fetch : String → Except String (List (ℤ × ℚ)))
    (symbols : List String) (endDate : ℤ) : List (String × CrossResult) :=
  List.insertionSort (fun a b => b.2.cross_date ≤ a.2.cross_date)
    (symbols.filterMap (fun symbol =>
      match fetch symbol with
      | .error _ => none
      | .ok hist => (check_cross hist endDate).map (fun r => (symbol, r))))

/-- C8: a data-fetch or computation error for one symbol never aborts the
batch: deleting the failing symbol from the input leaves the output
unchanged, and the batch output consists exactly of the successfully
analyzed symbols' events. -/
theorem analyze_stocks_error_isolated
    (fetch : String → Except String (List (ℤ × ℚ))) (endDate : ℤ)
    (bad : String) (e : String) (hbad : fetch bad = .error e) (l1 l2 : List String) :
    analyze_stocks fetch (l1 ++ bad :: l2) endDate = analyze_stocks fetch (l1 ++ l2) endDate ∧
      ∀ s r, (s, r) ∈ analyze_stocks fetch (l1 ++ bad :: l2) endDate ↔
        s ∈ l1 ++ bad :: l2 ∧ ∃ hist, fetch s = .ok hist ∧ check_cross hist endDate = some r := by
  constructor
  · unfold analyze_stocks
    congr 1
    rw [List.filterMap_append, List.filterMap_append]
    congr 1
    rw [List.filterMap_cons_none (by simp only [hbad])]
  · intro s r
    simp only [analyze_stocks, List.mem_insertionSort, List.mem_filterMap]
    constructor
    · rintro ⟨sym, hsym, hf⟩
      rcases hfetch : fetch sym with e2 | hist
      · rw [hfetch] at hf
        simp at hf
      · rw [hfetch] at hf
        simp only [Option.map_eq_some'] at hf
        obtain ⟨a, ha, heq⟩ := hf
        cases heq
        exact ⟨hsym, hist, hfetch, ha⟩
    · rintro ⟨hs, hist, hf, hc⟩
      refine ⟨s, hs, ?_⟩
      rw [hf]
      simp [hc]

/-- A concrete collaborator with one failing symbol and otherwise empty
histories. -/
def demoFetch : String → Except String (List (ℤ × ℚ)) :=
  fun s => if s = "BAD" then Except.error "boom" else Except.ok []

/-- C8 (witness): dropping the failing symbol from the middle of the batch
leaves the output unchanged. -/
theorem analyze_stocks_error_isolated_witness :
    analyze_stocks demoFetch (["AAA"] ++ "BAD" :: ["BBB"]) 0 =
      analyze_stocks demoFetch (["AAA"] ++ ["BBB"]) 0 :=
  (analyze_stocks_error_isolated demoFetch 0 "BAD" "boom" (by rfl) ["AAA"] ["BBB"]).1

/-- Value domain of the pandas float series in the RSI pipeline
(`src/utils/cross_analyzer.py:129-143`): a rational, NaN, or a signed
infinity.  Pandas/numpy series arithmetic yields `inf`/`NaN` on division by
zero instead of raising, so the `try/except` of the source never fires on
this path.  The operations below implement IEEE-754 semantics on this
domain; both floating zeros are conflated with the rational 0 (only `+0` is
reachable here). -/
inductive PF where
  | nan : PF
  | pinf : PF
  | ninf : PF
  | q : ℚ → PF
deriving DecidableEq, Repr

def PF.neg : PF → PF
  | nan => nan
  | pinf => ninf
  | ninf => pinf
  | q v => q (-v)

def PF.add : PF → PF → PF
  | nan, _ => nan
  | _, nan => nan
  | pinf, pinf => pinf
  | pinf, ninf => nan
  | ninf, pinf => nan
  | ninf, ninf => ninf
  | pinf, q _ => pinf
  | ninf, q _ => ninf
  | q _, pinf => pinf
  | q _, ninf => ninf
  | q a, q b => q (a + b)

def PF.sub (a b : PF) : PF := a.add b.neg

def PF.div : PF → PF → PF
  | nan, _ => nan
  | _, nan => nan
  | pinf, pinf => nan
  | pinf, ninf => nan
  | ninf, pinf => nan
  | ninf, ninf => nan
  | pinf, q b => if b < 0 then ninf else pinf
  | ninf, q b => if b < 0 then pinf else ninf
  | q _, pinf => q 0
  | q _, ninf => q 0
  | q a, q b =>
    if b = 0 then (if a = 0 then nan else if 0 < a then pinf else ninf) else q (a / b)

/-- `prices.diff()` (`src/utils/cross_analyzer.py:132`): NaN first entry,
then consecutive differences. -/
def diffSeries (prices : List ℚ) : List PF :=
  match prices with
  | [] => []
  | p :: rest => PF.nan :: (rest.zip (p :: rest)).map (fun x => PF.q (x.1 - x.2))

/-- `delta.where(delta > 0, 0)` (`src/utils/cross_analyzer.py:134`): keep a
positive delta, otherwise 0; the comparison `NaN > 0` is false, so the NaN
head is replaced by 0. -/
def gainVal : PF → PF
  | PF.q v => if 0 < v then PF.q v else PF.q 0
  | PF.pinf => PF.pinf
  | _ => PF.q 0

/-- `-delta.where(delta < 0, 0)` (`src/utils/cross_analyzer.py:135`): the
magnitude of a negative delta, otherwise 0; `NaN < 0` is false, so the NaN
head is replaced by 0. -/
def lossVal : PF → PF
  | PF.q v => if v < 0 then PF.q (-v) else PF.q 0
  | PF.ninf => PF.pinf
  | _ => PF.q 0

def pfSum (l : List PF) : PF := l.foldr PF.add (PF.q 0)

/-- `Series.rolling(window=w).mean()` on the PF domain
(`src/utils/cross_analyzer.py:134-135`): NaN while fewer than `w`
observations exist, then the mean of the trailing `w` entries. -/
def rollingMeanPF (w : ℕ) (xs : List PF) : List PF :=
  (List.range xs.length).map (fun i =>
    if i + 1 < w then PF.nan
    else PF.div (pfSum ((xs.take (i + 1)).drop (i + 1 - w))) (PF.q w))

/-- Embedding of `CrossAnalyzer._calculate_rsi`
(`src/utils/cross_analyzer.py:129-143`).  The source signature has
`period=14` as default; its only call site uses the default.  The result is
`rsi.iloc[-1]` (the last element of the RSI series, which may be NaN or a
number), and Python `None` — modelled by `none` — is returned only when the
series is empty. -/
def calculate_rsi (prices : List ℚ) (period : ℕ) : Option PF :=
  let delta := diffSeries prices
  let gain := rollingMeanPF period (delta.map gainVal)
  let loss := rollingMeanPF period (delta.map lossVal)
  let rs := List.zipWith PF.div gain loss
  let rsi := rs.map (fun r => PF.sub (PF.q 100) (PF.div (PF.q 100) (PF.add (PF.q 1) r)))
  rsi.getLast?

/-- Rational reading of a gain entry (`gainVal` always produces a `PF.q` on
the NaN-free-after-`where` series). -/
def gainQ : PF → ℚ
  | PF.q v => if 0 < v then v else 0
  | _ => 0

/-- Rational reading of a loss entry. -/
def lossQ : PF → ℚ
  | PF.q v => if v < 0 then -v else 0
  | _ => 0

/-- The trailing average of gains over the last `period` deltas (the value
the rolling mean takes at the final index when enough data exists). -/
def lastGainAvg (prices : List ℚ) (period : ℕ) : ℚ :=
  ((((diffSeries prices).map gainQ).drop (prices.length - period)).sum) / (period : ℚ)

/-- The trailing average of loss magnitudes over the last `period` deltas. -/
def lastLossAvg (prices : List ℚ) (period : ℕ) : ℚ :=
  ((((diffSeries prices).map lossQ).drop (prices.length - period)).sum) / (period : ℚ)

/-- C6 (counterexample): on the 14-point strictly rising series the loss
average is zero and fewer than `period + 1 = 15` points exist, yet
`_calculate_rsi` returns the definite value 100 (pandas gives `rs = +∞` and
`100 − 100/(1+∞) = 100`), not an "unavailable" outcome — refuting both the
`period+1` length clause and the zero-loss clause of the claim. -/
theorem rsi_loss_zero_returns_100_cex :
    calculate_rsi [1, 2, 3, 4, 5, 6, 7, 8, 9, 10, 11, 12, 13, 14] 14 = some (PF.q 100) ∧
      lastLossAvg [1, 2, 3, 4, 5, 6, 7, 8, 9, 10, 11, 12, 13, 14] 14 = 0 ∧
      List.length [(1 : ℚ), 2, 3, 4, 5, 6, 7, 8, 9, 10, 11, 12, 13, 14] < 14 + 1 := by
  refine ⟨?_, ?_, ?_⟩ <;> with_unfolding_all decide

lemma diffSeries_length (prices : List ℚ) : (diffSeries prices).length = prices.length := by
  cases prices with
  | nil => rfl
  | cons p rest =>
    simp only [diffSeries, List.length_cons, List.length_map, List.length_zip]
    omega

lemma diffSeries_mem (prices : List ℚ) :
    ∀ x ∈ diffSeries prices, x = PF.nan ∨ ∃ v, x = PF.q v := by
  intro x hx
  cases prices with
  | nil => simp [diffSeries] at hx
  | cons p rest =>
    simp only [diffSeries, List.mem_cons, List.mem_map] at hx
    rcases hx with rfl | ⟨y, hy, rfl⟩
    · exact Or.inl rfl
    · exact Or.inr ⟨_, rfl⟩

lemma gainVal_eq (x : PF) (h : x = PF.nan ∨ ∃ v, x = PF.q v) :
    gainVal x = PF.q (gainQ x) := by
  rcases h with rfl | ⟨v, rfl⟩
  · rfl
  · by_cases h0 : 0 < v <;> simp [gainVal, gainQ, h0]

lemma lossVal_eq (x : PF) (h : x = PF.nan ∨ ∃ v, x = PF.q v) :
    lossVal x = PF.q (lossQ x) := by
  rcases h with rfl | ⟨v, rfl⟩
  · rfl
  · by_cases h0 : v < 0 <;> simp [lossVal, lossQ, h0]

lemma pfSum_map_q (l : List ℚ) : pfSum (l.map PF.q) = PF.q l.sum := by
  induction l with
  | nil => rfl
  | cons a t ih =>
    unfold pfSum at ih ⊢
    simp only [List.map_cons, List.foldr_cons, List.sum_cons]
    rw [ih]
    rfl

lemma gainQ_nonneg (x : PF) : 0 ≤ gainQ x := by
  cases x with
  | q v =>
    dsimp [gainQ]
    split
    · exact le_of_lt (by assumption)
    · exact le_refl 0
  | nan => exact le_refl 0
  | pinf => exact le_refl 0
  | ninf => exact le_refl 0

lemma lastGainAvg_nonneg (prices : List ℚ) (period : ℕ) : 0 ≤ lastGainAvg prices period := by
  unfold lastGainAvg
  apply div_nonneg _ (by positivity)
  apply List.sum_nonneg
  intro x hx
  obtain ⟨d, hd, rfl⟩ := List.mem_map.mp (List.drop_subset _ _ hx)
  exact gainQ_nonneg d

lemma PF.div_q_q (a b : ℚ) (hb : b ≠ 0) : PF.div (PF.q a) (PF.q b) = PF.q (a / b) := by
  show (if b = 0 then (if a = 0 then PF.nan else if 0 < a then PF.pinf else PF.ninf)
    else PF.q (a / b)) = PF.q (a / b)
  rw [if_neg hb]

lemma rollingMeanPF_getElem? (w : ℕ) (xs : List PF) (i : ℕ) (h : i < xs.length) :
    (rollingMeanPF w xs)[i]? = some (if i + 1 < w then PF.nan
      else PF.div (pfSum ((xs.take (i + 1)).drop (i + 1 - w))) (PF.q w)) := by
  unfold rollingMeanPF
  rw [List.getElem?_map, List.getElem?_range h]
  rfl

lemma calculate_rsi_last (prices : List ℚ) (period : ℕ) (hne : prices ≠ []) :
    calculate_rsi prices period = some
      (PF.sub (PF.q 100) (PF.div (PF.q 100) (PF.add (PF.q 1)
        (PF.div
          (if prices.length - 1 + 1 < period then PF.nan
           else PF.div (pfSum ((((diffSeries prices).map gainVal).take
             (prices.length - 1 + 1)).drop (prices.length - 1 + 1 - period))) (PF.q period))
          (if prices.length - 1 + 1 < period then PF.nan
           else PF.div (pfSum ((((diffSeries prices).map lossVal).take
             (prices.length - 1 + 1)).drop (prices.length - 1 + 1 - period))) (PF.q period)))))) := by
  have hDl : (diffSeries prices).length = prices.length := diffSeries_length prices
  have hGl : ((diffSeries prices).map gainVal).length = prices.length := by
    rw [List.length_map, hDl]
  have hLl : ((diffSeries prices).map lossVal).length = prices.length := by
    rw [List.length_map, hDl]
  have hgl : (rollingMeanPF period ((diffSeries prices).map gainVal)).length = prices.length := by
    simp [rollingMeanPF, hGl]
  have hll : (rollingMeanPF period ((diffSeries prices).map lossVal)).length = prices.length := by
    simp [rollingMeanPF, hLl]
  have hpos : 0 < prices.length := List.length_pos.mpr hne
  simp only [calculate_rsi]
  rw [List.getLast?_eq_getElem?]
  rw [List.length_map, List.length_zipWith, hgl, hll, Nat.min_self]
  rw [List.getElem?_map, List.getElem?_zipWith,
    rollingMeanPF_getElem? period _ _ (by rw [hGl]; omega),
    rollingMeanPF_getElem? period _ _ (by rw [hLl]; omega)]
  rfl

/-- C6 (amended): `_calculate_rsi` returns `None` only for the empty series.
On a nonempty series it returns the last RSI value: NaN when fewer than
`period` points exist (the initial NaN delta is filled with 0 by the
`where` calls, so the boundary is `period`, not `period+1`) and NaN when both
trailing averages are zero; exactly 100 when the trailing loss average is
zero and the gain average is positive (`rs = +∞`, no error raised); and
`100 − 100/(1 + rs)` with `rs` the trailing gain average over the loss
average otherwise. -/
theorem rsi_characterization (prices : List ℚ) :
    (calculate_rsi prices 14 = none ↔ prices = []) ∧
      (prices ≠ [] → prices.length < 14 → calculate_rsi prices 14 = some PF.nan) ∧
      (14 ≤ prices.length →
        (lastLossAvg prices 14 = 0 → lastGainAvg prices 14 = 0 →
          calculate_rsi prices 14 = some PF.nan) ∧
        (lastLossAvg prices 14 = 0 → 0 < lastGainAvg prices 14 →
          calculate_rsi prices 14 = some (PF.q 100)) ∧
        (0 < lastLossAvg prices 14 →
          calculate_rsi prices 14 = some (PF.q
            (100 - 100 / (1 + lastGainAvg prices 14 / lastLossAvg prices 14))))) := by
  refine ⟨⟨?_, ?_⟩, ?_, ?_⟩
  · intro h
    by_contra hne
    rw [calculate_rsi_last prices 14 hne] at h
    exact Option.noConfusion h
  · rintro rfl
    rfl
  · intro hne hlt
    rw [calculate_rsi_last prices 14 hne]
    have hcond : prices.length - 1 + 1 < 14 := by
      have := List.length_pos.mpr hne
      omega
    rw [if_pos hcond, if_pos hcond]
    rfl
  · intro hge
    have hne : prices ≠ [] := by
      intro h
      rw [h] at hge
      simp at hge
    have hpos : 0 < prices.length := List.length_pos.mpr hne
    have hcond : ¬ prices.length - 1 + 1 < 14 := by omega
    have hn1 : prices.length - 1 + 1 = prices.length := by omega
    have hDmem := diffSeries_mem prices
    have hGl : ((diffSeries prices).map gainVal).length = prices.length := by
      rw [List.length_map, diffSeries_length]
    have hLl : ((diffSeries prices).map lossVal).length = prices.length := by
      rw [List.length_map, diffSeries_length]
    have htakeG : ((diffSeries prices).map gainVal).take prices.length
        = (diffSeries prices).map gainVal := by
      rw [← hGl, List.take_length]
    have htakeL : ((diffSeries prices).map lossVal).take prices.length
        = (diffSeries prices).map lossVal := by
      rw [← hLl, List.take_length]
    have hGmap : (diffSeries prices).map gainVal
        = ((diffSeries prices).map gainQ).map PF.q := by
      rw [List.map_map]
      exact List.map_congr_left (fun d hd => gainVal_eq d (hDmem d hd))
    have hLmap : (diffSeries prices).map lossVal
        = ((diffSeries prices).map lossQ).map PF.q := by
      rw [List.map_map]
      exact List.map_congr_left (fun d hd => lossVal_eq d (hDmem d hd))
    have h14q : ((14 : ℕ) : ℚ) ≠ 0 := by norm_num
    have hmain : calculate_rsi prices 14 = some
        (PF.sub (PF.q 100) (PF.div (PF.q 100) (PF.add (PF.q 1)
          (PF.div (PF.q (lastGainAvg prices 14)) (PF.q (lastLossAvg prices 14)))))) := by
      rw [calculate_rsi_last prices 14 hne, if_neg hcond, if_neg hcond, hn1, htakeG, htakeL,
        hGmap, hLmap, ← List.map_drop (f := PF.q), ← List.map_drop (f := PF.q),
        pfSum_map_q, pfSum_map_q, PF.div_q_q _ _ h14q, PF.div_q_q _ _ h14q]
      rfl
    refine ⟨?_, ?_, ?_⟩
    · intro hl hg
      rw [hmain, hl, hg]
      with_unfolding_all rfl
    · intro hl hg
      have hg0 : lastGainAvg prices 14 ≠ 0 := ne_of_gt hg
      have hdivp : PF.div (PF.q (lastGainAvg prices 14)) (PF.q 0) = PF.pinf := by
        show (if (0 : ℚ) = 0 then (if lastGainAvg prices 14 = 0 then PF.nan
          else if 0 < lastGainAvg prices 14 then PF.pinf else PF.ninf)
          else PF.q (lastGainAvg prices 14 / 0)) = PF.pinf
        rw [if_pos rfl, if_neg hg0, if_pos hg]
      rw [hmain, hl, hdivp]
      norm_num [PF.sub, PF.add, PF.div, PF.neg]
    · intro hl
      have hlne : lastLossAvg prices 14 ≠ 0 := ne_of_gt hl
      have hgnn : 0 ≤ lastGainAvg prices 14 := lastGainAvg_nonneg prices 14
      have hfrac : (0 : ℚ) ≤ lastGainAvg prices 14 / lastLossAvg prices 14 :=
        div_nonneg hgnn (le_of_lt hl)
      have hden : (1 : ℚ) + lastGainAvg prices 14 / lastLossAvg prices 14 ≠ 0 :=
        ne_of_gt (by linarith)
      rw [hmain, PF.div_q_q _ _ hlne,
        show PF.add (PF.q 1) (PF.q (lastGainAvg prices 14 / lastLossAvg prices 14))
          = PF.q (1 + lastGainAvg prices 14 / lastLossAvg prices 14) from rfl,
        PF.div_q_q _ _ hden]
      norm_num [PF.sub, PF.add, PF.neg]
      ring_nf

/-- C6 (witness): a 1-point series yields NaN; the 14-point rising series
yields exactly 100; a flat-then-falling 15-point series yields exactly 0. -/
theorem rsi_characterization_witness :
    calculate_rsi [5] 14 = some PF.nan ∧
      calculate_rsi [1, 2, 3, 4, 5, 6, 7, 8, 9, 10, 11, 12, 13, 14] 14 = some (PF.q 100) ∧
      calculate_rsi [10, 10, 10, 10, 10, 10, 10, 10, 10, 10, 10, 10, 10, 10, 9] 14
        = some (PF.q 0) := by
  refine ⟨?_, ?_, ?_⟩
  · exact (rsi_characterization [5]).2.1 (by decide) (by decide)
  · exact ((rsi_characterization
      [1, 2, 3, 4, 5, 6, 7, 8, 9, 10, 11, 12, 13, 14]).2.2 (by decide)).2.1
      (by with_unfolding_all decide) (by with_unfolding_all decide)
  · have h := ((rsi_characterization
      [10, 10, 10, 10, 10, 10, 10, 10, 10, 10, 10, 10, 10, 10, 9]).2.2 (by decide)).2.2
      (by with_unfolding_all decide)
    rw [h]
    have hg : lastGainAvg [10, 10, 10, 10, 10, 10, 10, 10, 10, 10, 10, 10, 10, 10, 9] 14
        = 0 := by
      with_unfolding_all decide
    have hl : lastLossAvg [10, 10, 10, 10, 10, 10, 10, 10, 10, 10, 10, 10, 10, 10, 9] 14
        = 1 / 14 := by
      with_unfolding_all decide
    rw [hg, hl]
    norm_num
